import Mathlib

/-!
# IconForge core pipeline: shallow embedding

A shallow embedding of the core logic of `IconForge.py` (MCD IconForge Pro):

* `IconGenerator.process_image` (source lines 65-183): the ordered raster
  transformation chain (correction → background removal → background fill →
  color overlay → shadow/stroke effect → padding → watermark → corner
  rounding), embedded stage by stage below as `correctionStage`,
  `removeBgStage`, `bgFillStage`, `colorOverlayStage`, `fxStage`,
  `paddingStage`, `watermarkStage`, `roundingStage`, composed by
  `process_image`.
* `IconGenerator._generate_svg` (lines 186-214): the textual SVG recolor,
  embedded as `subAttr` / `svgRecolor` over `List Char`.
* `GenerateWorker.run` (lines 314-346): the batch loop with cooperative
  cancellation, embedded as `workerRun` / `runWorker` producing a trace of
  emitted signals.

Modelling conventions:

* Images are RGBA with 8-bit natural-number channels; `Img.pix` is a total
  function on coordinates (PIL only ever reads in-bounds pixels, and every
  canvas the code creates is filled with a constant, so the total-function
  view is conservative).
* Pillow's `Image.paste(src, pos, mask)` blends every band (including
  alpha) with the mask using the exact integer arithmetic of Pillow's
  `Paste.c` (`MULDIV255` / `BLEND` macros); `muldiv255` and `blend` below
  reproduce that arithmetic bit for bit.
* Python `int(x / y)` on the nonnegative quantities appearing in the code
  is modelled as exact rational floor (natural-number division after
  clearing denominators).  Python evaluates it in IEEE-754 doubles; at
  every concrete input used in a theorem below the float result agrees
  with the exact rational floor.
* Pillow library operations whose pixel content no claim depends on
  (`ImageEnhance.*`, `GaussianBlur`, `MaxFilter`, LANCZOS `resize`, the
  watermark-file loader) are passed in as an explicit `PILOps` record of
  opaque-to-the-theorems functions, so every theorem holds for all
  behaviours of those library primitives.
-/

/-- One RGBA pixel, 8-bit channels as naturals. -/
structure RGBA where
  r : ℕ
  g : ℕ
  b : ℕ
  a : ℕ
deriving DecidableEq, Repr

/-- A flat RGB color (Python hex strings like `'#rrggbb'` always parse to a
fully opaque color, so no alpha field). -/
structure RGB where
  r : ℕ
  g : ℕ
  b : ℕ
deriving DecidableEq, Repr

/-- A raster image: dimensions plus a total pixel function. -/
structure Img where
  width : ℕ
  height : ℕ
  pix : ℕ → ℕ → RGBA

/-- Pillow's `MULDIV255(a, b)` macro from `Paste.c`:
`tmp = a*b + 128; ((tmp >> 8) + tmp) >> 8` — the exact division-by-255
rounding used by `Image.paste` blending. -/
def muldiv255 (a b : ℕ) : ℕ :=
  let t := a * b + 128
  (t / 256 + t) / 256

/-- Pillow's `BLEND(mask, in1, in2)` from `Paste.c`: the per-channel mix
applied by `Image.paste(src, pos, mask)` where `mask` is an `L` band. -/
def blend (m x y : ℕ) : ℕ :=
  muldiv255 x (255 - m) + muldiv255 y m

/-- Blend two RGBA pixels under one mask value, band by band (Pillow pastes
all four bands, including alpha). -/
def blendPix (m : ℕ) (d s : RGBA) : RGBA :=
  ⟨blend m d.r s.r, blend m d.g s.g, blend m d.b s.b, blend m d.a s.a⟩

/-- The alpha band of an image, as `img.getchannel('A')` produces it. -/
def alphaOf (img : Img) : ℕ → ℕ → ℕ :=
  fun x y => (img.pix x y).a

/-- A constant-color canvas, as `Image.new("RGBA", (w, h), color)`. -/
def constImg (w h : ℕ) (c : RGBA) : Img :=
  ⟨w, h, fun _ _ => c⟩

/-- `Image.paste(src, (px, py), mask)` on `dst`: inside the pasted
rectangle every band is blended with the mask value; outside, `dst` is
unchanged.  Positions are integers (Pillow clips out-of-canvas parts; the
guard below reads the source only at in-range offsets). -/
def paste (dst src : Img) (px py : ℤ) (mask : ℕ → ℕ → ℕ) : Img :=
  ⟨dst.width, dst.height, fun x y =>
    if px ≤ (x : ℤ) ∧ (x : ℤ) < px + src.width ∧
       py ≤ (y : ℤ) ∧ (y : ℤ) < py + src.height then
      let sx := ((x : ℤ) - px).toNat
      let sy := ((y : ℤ) - py).toNat
      blendPix (mask sx sy) (dst.pix x y) (src.pix sx sy)
    else dst.pix x y⟩

/-- The Pillow library primitives `process_image` calls whose pixel-level
behaviour no claim depends on.  Each is an explicit parameter so the
theorems below hold for every behaviour of these primitives. -/
structure PILOps where
  /-- `ImageEnhance.Brightness(img).enhance(1 + pct/100)` -/
  enhanceBrightness : ℤ → Img → Img
  /-- `ImageEnhance.Contrast(img).enhance(1 + pct/100)` -/
  enhanceContrast : ℤ → Img → Img
  /-- `ImageEnhance.Color(img).enhance(1 + pct/100)` -/
  enhanceColor : ℤ → Img → Img
  /-- `alpha.filter(ImageFilter.GaussianBlur(blur))` on an `L` band -/
  gaussianBlur : ℕ → (ℕ → ℕ → ℕ) → (ℕ → ℕ → ℕ)
  /-- one pass of `filter(ImageFilter.MaxFilter(3))` on an `L` band -/
  maxFilter3 : (ℕ → ℕ → ℕ) → (ℕ → ℕ → ℕ)
  /-- `img.resize((w, h), Image.LANCZOS)` -/
  lanczosResize : Img → ℕ → ℕ → Img
  /-- `ImageEnhance.Brightness(alpha).enhance(opacity/100)` on an `L` band -/
  scaleAlpha : ℕ → (ℕ → ℕ → ℕ) → (ℕ → ℕ → ℕ)
  /-- `Image.open(path).convert("RGBA")`; `none` models a missing path
  (`os.path.exists` false) or a load failure (caught by the stage). -/
  loadImage : String → Option Img

/-- The options dictionary fields `process_image` reads (source lines
73-174), as a record.  Field defaults mirror the `options.get` defaults. -/
structure Options where
  advBrightness : ℤ := 0
  advContrast : ℤ := 0
  advSaturation : ℤ := 0
  removeBg : Bool := false
  bgColor : Option RGBA := none
  colorOverlayEnabled : Bool := false
  colorOverlay : RGB := ⟨255, 255, 255⟩
  advFxEnabled : Bool := false
  advFxMode : String := ""
  advShadowBlur : ℕ := 5
  advShadowOffsetX : ℤ := 5
  advShadowOffsetY : ℤ := 5
  advShadowColor : RGB := ⟨0, 0, 0⟩
  advStrokeWidth : ℕ := 2
  advStrokeColor : RGB := ⟨255, 255, 255⟩
  padding : ℕ := 0
  advWatermarkEnabled : Bool := false
  advWatermarkPath : Option String := none
  advWatermarkSize : ℕ := 20
  advWatermarkOpacity : ℕ := 50
  advWatermarkPos : String := ""
  radius : ℕ := 0

/-- Stage 1 (source lines 73-79): brightness/contrast/saturation.  The code
computes `factor = 1.0 + pct/100.0` and applies the enhancer only when
`factor != 1.0`; for `pct` in the UI range `-100..100` that float test is
exactly `pct ≠ 0`. -/
def correctionStage (ops : PILOps) (b c s : ℤ) (img : Img) : Img :=
  let i1 := if b ≠ 0 then ops.enhanceBrightness b img else img
  let i2 := if c ≠ 0 then ops.enhanceContrast c i1 else i1
  if s ≠ 0 then ops.enhanceColor s i2 else i2

/-- Stage 2a (source lines 82-84): background removal.  The code guards on
`options.get('remove_bg') and REMBG_AVAILABLE and remove_func`; a raised
exception inside `remove_func` is caught (`Except.error` below) and the
image passes through unchanged. -/
def removeBgStage (removeBg rembgAvailable : Bool)
    (remove_func : Option (Img → Except String Img)) (img : Img) : Img :=
  if removeBg && rembgAvailable && remove_func.isSome then
    match remove_func with
    | some f =>
      match f img with
      | .ok out => out
      | .error _ => img
    | none => img
  else img

/-- Stage 2b (source lines 86-89): background fill.  `Image.new` of the
background color, then `background.paste(img, (0, 0), img)` (the image's
own alpha band is the mask). -/
def bgFillStage (bgColor : Option RGBA) (img : Img) : Img :=
  match bgColor with
  | some c => paste (constImg img.width img.height c) img 0 0 (alphaOf img)
  | none => img

/-- Stage 2c (source lines 91-95): color overlay.  A flat opaque canvas of
the overlay color is pasted onto the image with the image's alpha band as
mask: `img.paste(overlay, (0,0), alpha)`. -/
def colorOverlayStage (enabled : Bool) (c : RGB) (img : Img) : Img :=
  if enabled then
    let overlay := constImg img.width img.height ⟨c.r, c.g, c.b, 255⟩
    paste img overlay 0 0 (alphaOf img)
  else img

/-- Source line 111: `shadow_paste_pos = (blur + (offset_x if offset_x > 0
else 0), blur + (offset_y if offset_y > 0 else 0))`. -/
def shadowPastePos (blur : ℕ) (ox oy : ℤ) : ℤ × ℤ :=
  ((blur : ℤ) + (if 0 < ox then ox else 0),
   (blur : ℤ) + (if 0 < oy then oy else 0))

/-- Source line 113: `img_paste_pos = (blur - (offset_x if offset_x < 0
else 0), blur - (offset_y if offset_y < 0 else 0))`. -/
def imgPastePos (blur : ℕ) (ox oy : ℤ) : ℤ × ℤ :=
  ((blur : ℤ) - (if ox < 0 then ox else 0),
   (blur : ℤ) - (if oy < 0 then oy else 0))

/-- Stage 3 (source lines 98-130): shadow or stroke effect, keyed on the
`adv_fx_mode` string exactly as the code's `==` chain is. -/
def fxStage (ops : PILOps) (opts : Options) (img : Img) : Img :=
  if opts.advFxEnabled then
    let alpha := alphaOf img
    if opts.advFxMode = "shadow" then
      let blur := opts.advShadowBlur
      let ox := opts.advShadowOffsetX
      let oy := opts.advShadowOffsetY
      let c := opts.advShadowColor
      let shadow := constImg img.width img.height ⟨c.r, c.g, c.b, 255⟩
      let shadowAlpha := ops.gaussianBlur blur alpha
      let canvas := constImg (img.width + ox.natAbs + blur * 2)
        (img.height + oy.natAbs + blur * 2) ⟨0, 0, 0, 0⟩
      let sPos := shadowPastePos blur ox oy
      let c1 := paste canvas shadow sPos.1 sPos.2 shadowAlpha
      let iPos := imgPastePos blur ox oy
      paste c1 img iPos.1 iPos.2 alpha
    else if opts.advFxMode = "stroke" then
      let strokeAlpha := Nat.iterate ops.maxFilter3 opts.advStrokeWidth alpha
      let c := opts.advStrokeColor
      let stroke := constImg img.width img.height ⟨c.r, c.g, c.b, 255⟩
      let canvas := constImg img.width img.height ⟨0, 0, 0, 0⟩
      let c1 := paste canvas stroke 0 0 strokeAlpha
      paste c1 img 0 0 alpha
    else img
  else img

/-- Stage 4 (source lines 133-140), size computation (line 136): the code
computes `new_size = int(max(w,h) / (1 - padding/100))`; Python `int(...)`
truncates, so for the nonnegative quantity here this is the rational floor
`(100 * max(w,h)) / (100 - padding)` (natural-number division). -/
def paddedSize (padding : ℕ) (img : Img) : ℕ :=
  100 * max img.width img.height / (100 - padding)

/-- Source line 138: `paste_pos = ((new_size - img.width) // 2,
(new_size - img.height) // 2)`. -/
def paddedPos (padding : ℕ) (img : Img) : ℕ × ℕ :=
  ((paddedSize padding img - img.width) / 2,
   (paddedSize padding img - img.height) / 2)

def paddingStage (padding : ℕ) (img : Img) : Img :=
  if padding > 0 then
    let newSize := paddedSize padding img
    let canvas := constImg newSize newSize ⟨0, 0, 0, 0⟩
    paste canvas img ((paddedPos padding img).1 : ℤ)
      ((paddedPos padding img).2 : ℤ) (alphaOf img)
  else img

/-- The nine-anchor position dictionary of source lines 162-166, built from
the current canvas size and the resized watermark size.  Python `//` floors,
hence `Int.fdiv`. -/
def posMapList (w h ww wh : ℕ) : List (String × ℤ × ℤ) :=
  [("top_left", (0, 0)),
   ("top_center", (Int.fdiv ((w : ℤ) - ww) 2, 0)),
   ("top_right", ((w : ℤ) - ww, 0)),
   ("mid_left", (0, Int.fdiv ((h : ℤ) - wh) 2)),
   ("center", (Int.fdiv ((w : ℤ) - ww) 2, Int.fdiv ((h : ℤ) - wh) 2)),
   ("mid_right", ((w : ℤ) - ww, Int.fdiv ((h : ℤ) - wh) 2)),
   ("bottom_left", (0, (h : ℤ) - wh)),
   ("bottom_center", (Int.fdiv ((w : ℤ) - ww) 2, (h : ℤ) - wh)),
   ("bottom_right", ((w : ℤ) - ww, (h : ℤ) - wh))]

/-- Result of `pos_map.get(key, 'bottom_right')` (source line 167): either
a coordinate pair from the dictionary, or — for any unrecognized key — the
*string* `'bottom_right'`, which is not a coordinate pair. -/
inductive PastePos where
  | coords (x y : ℤ)
  | fallbackStr (s : String)
deriving DecidableEq, Repr

/-- `pos_map.get(key, 'bottom_right')`: dictionary lookup with the string
default. -/
def watermarkPosLookup (m : List (String × ℤ × ℤ)) (key : String) : PastePos :=
  match m.lookup key with
  | some c => .coords c.1 c.2
  | none => .fallbackStr "bottom_right"

/-- Stage 5 (source lines 143-171): watermark.  The whole stage body runs
inside `try/except`; `img.paste(watermark, pos, watermark)` with the
fallback *string* position raises a `TypeError`, which the handler catches,
leaving the image unchanged — the `.fallbackStr` branch below. -/
def watermarkStage (ops : PILOps) (opts : Options) (img : Img) : Img :=
  match opts.advWatermarkPath with
  | none => img
  | some path =>
    if opts.advWatermarkEnabled then
      match ops.loadImage path with
      | none => img
      | some wm0 =>
        let base := min img.width img.height
        let newW := base * opts.advWatermarkSize / 100
        let newH := newW * wm0.height / wm0.width
        let wm1 := ops.lanczosResize wm0 newW newH
        let wm := if opts.advWatermarkOpacity < 100 then
            ⟨wm1.width, wm1.height, fun x y =>
              let p := wm1.pix x y
              ⟨p.r, p.g, p.b,
               ops.scaleAlpha opts.advWatermarkOpacity (alphaOf wm1) x y⟩⟩
          else wm1
        match watermarkPosLookup
            (posMapList img.width img.height wm.width wm.height)
            opts.advWatermarkPos with
        | .coords x y => paste img wm x y (alphaOf wm)
        | .fallbackStr _ => img
    else img

/-- Membership in the rounded rectangle `ImageDraw.rounded_rectangle((0, 0,
w, h), rad, fill=255)` draws: Pillow decomposes it into two axis-aligned
rectangles plus four corner discs of radius `rad`. -/
def inRoundedRect (w h rad : ℕ) (x y : ℕ) : Bool :=
  let W : ℤ := w; let H : ℤ := h; let r : ℤ := rad
  let X : ℤ := x; let Y : ℤ := y
  (decide (r ≤ X) && decide (X ≤ W - r)) ||
  (decide (r ≤ Y) && decide (Y ≤ H - r)) ||
  (decide ((X - r) ^ 2 + (Y - r) ^ 2 ≤ r ^ 2)) ||
  (decide ((X - (W - r)) ^ 2 + (Y - r) ^ 2 ≤ r ^ 2)) ||
  (decide ((X - r) ^ 2 + (Y - (H - r)) ^ 2 ≤ r ^ 2)) ||
  (decide ((X - (W - r)) ^ 2 + (Y - (H - r)) ^ 2 ≤ r ^ 2))

/-- Stage 6 (source lines 174-181): corner rounding.  The code computes
`radius = int(min(w,h) * (radius_percent/100) / 2)` — exact rational floor
`min(w,h) * radius_percent / 200` — and, when positive, draws the mask and
calls `img.putalpha(mask)`, which *replaces* the alpha band with the mask
(255 inside the rounded rectangle, 0 outside).  `roundRadius` is the
radius computation of source line 176. -/
def roundRadius (radiusPercent : ℕ) (img : Img) : ℕ :=
  min img.width img.height * radiusPercent / 200

def roundingStage (radiusPercent : ℕ) (img : Img) : Img :=
  if radiusPercent > 0 then
    let radius := roundRadius radiusPercent img
    if radius > 0 then
      ⟨img.width, img.height, fun x y =>
        let p := img.pix x y
        ⟨p.r, p.g, p.b,
         if inRoundedRect img.width img.height radius x y then 255 else 0⟩⟩
    else img
  else img

/-- `IconGenerator.process_image` (source lines 65-183): the full ordered
chain.  The leading `source_img.copy().convert("RGBA")` is the identity on
the RGBA images this model works over. -/
def process_image (ops : PILOps) (rembgAvailable : Bool) (opts : Options)
    (remove_func : Option (Img → Except String Img)) (img0 : Img) : Img :=
  let i1 := correctionStage ops opts.advBrightness opts.advContrast
    opts.advSaturation img0
  let i2 := removeBgStage opts.removeBg rembgAvailable remove_func i1
  let i3 := bgFillStage opts.bgColor i2
  let i4 := colorOverlayStage opts.colorOverlayEnabled opts.colorOverlay i3
  let i5 := fxStage ops opts i4
  let i6 := paddingStage opts.padding i5
  let i7 := watermarkStage ops opts i6
  roundingStage opts.radius i7

/-! ## Vector recolor (`_generate_svg`, source lines 186-214) -/

/-- The literal head of the pattern `fill="(?!(none|url))[^"]+"`. -/
def fillLit : List Char := ['f', 'i', 'l', 'l', '=', '"']

/-- The literal head of the pattern `stroke="(?!(none|url))[^"]+"`. -/
def strokeLit : List Char := ['s', 't', 'r', 'o', 'k', 'e', '=', '"']

/-- The negative lookahead `(?!(none|url))`: blocks a match exactly when
the attribute value *starts with* `none` or `url`. -/
def lookaheadBlocked (t : List Char) : Bool :=
  ['n', 'o', 'n', 'e'].isPrefixOf t || ['u', 'r', 'l'].isPrefixOf t

/-- Attempt to match `lit ++ (?!(none|url)) [^"]+ "` at the head of `s`,
exactly as `re` does: the literal, the lookahead, then a greedy nonempty
run of non-quote characters, then a closing quote.  Returns the matched
value and the remainder of the string after the match. -/
def tryMatch (lit : List Char) (s : List Char) :
    Option (List Char × List Char) :=
  if lit.isPrefixOf s then
    let t := s.drop lit.length
    if lookaheadBlocked t then none
    else
      let v := t.takeWhile (fun c => c ≠ '"')
      if v.isEmpty then none
      else
        match t.dropWhile (fun c => c ≠ '"') with
        | '"' :: rest => some (v, rest)
        | _ => none
  else none

/-- One pass of `re.sub(lit-pattern, lit ++ color ++ '"', s)`: scan left to
right; at a match, emit the replacement and continue after the matched
region (replacements are not rescanned); otherwise advance one character.
The `fuel` argument is only a structural-recursion bound: every step
strictly shortens the remaining input (`tryMatch_rest_length`), so with
`fuel = s.length` — as `subAttr` passes it — the `0` case is never hit. -/
def subAttrF (lit color : List Char) : ℕ → List Char → List Char
  | 0, s => s
  | fuel + 1, s =>
    match tryMatch lit s with
    | some (_, rest) => lit ++ color ++ '"' :: subAttrF lit color fuel rest
    | none =>
      match s with
      | [] => []
      | c :: cs => c :: subAttrF lit color fuel cs

/-- `re.sub` of one attribute pattern over the whole string. -/
def subAttr (lit color : List Char) (s : List Char) : List Char :=
  subAttrF lit color s.length s

/-- The two `re.sub` calls of `_generate_svg` (source lines 207-208): the
`fill` pass, then the `stroke` pass on its output. -/
def svgRecolor (color : List Char) (svg : List Char) : List Char :=
  subAttr strokeLit color (subAttr fillLit color svg)

/-- `_generate_svg` (source lines 186-214) at the text level: with color
overlay disabled the source file is copied byte for byte; with it enabled
the two substitutions run. -/
def generate_svg_text (enabled : Bool) (color : List Char)
    (svg : List Char) : List Char :=
  if enabled then svgRecolor color svg else svg

/-- A structured view of an SVG text for stating what the two `re.sub`
passes do to a whole document: a document is a sequence of `fill="…"`
attributes, `stroke="…"` attributes, and plain in-between text (tag
names, other attributes, whitespace — anything without a double quote). -/
inductive SvgTok where
  | fillAttr (v : List Char)
  | strokeAttr (v : List Char)
  | plain (t : List Char)
deriving DecidableEq, Repr

/-- The raw text of one token. -/
def renderTok : SvgTok → List Char
  | .fillAttr v => fillLit ++ v ++ ['"']
  | .strokeAttr v => strokeLit ++ v ++ ['"']
  | .plain t => t

/-- The raw text of a whole document. -/
def renderDoc : List SvgTok → List Char
  | [] => []
  | tok :: rest => renderTok tok ++ renderDoc rest

/-- What the `fill` substitution pass (source line 207) does to one token:
a `fill` attribute whose value passes the `(?!(none|url))` lookahead gets
the requested color; everything else is untouched. -/
def fillPassTok (color : List Char) : SvgTok → SvgTok
  | .fillAttr v => .fillAttr (if lookaheadBlocked v then v else color)
  | tok => tok

/-- What the `stroke` substitution pass (source line 208) does to one
token. -/
def strokePassTok (color : List Char) : SvgTok → SvgTok
  | .strokeAttr v => .strokeAttr (if lookaheadBlocked v then v else color)
  | tok => tok

/-- A well-behaved attribute value: nonempty, quote-free, and not ending
in the literal `fill=` or `stroke=` (a value with such a suffix makes the
regex match run from inside one attribute across the closing quote into
the following text — `re.sub` really does mangle such documents, so they
are excluded from the claim's scope). -/
def goodVal (v : List Char) : Bool :=
  !v.isEmpty && !v.contains '"' &&
  !(['f', 'i', 'l', 'l', '='].isSuffixOf v) &&
  !(['s', 't', 'r', 'o', 'k', 'e', '='].isSuffixOf v)

/-- Token well-formedness: attribute values are well behaved and plain
text carries no double quote. -/
def goodTok : SvgTok → Bool
  | .fillAttr v => goodVal v
  | .strokeAttr v => goodVal v
  | .plain t => !t.contains '"'

/-- Normal form for documents: two adjacent plain segments are merged
into one (they concatenate, so this loses no generality). -/
def noAdjacentPlain : List SvgTok → Bool
  | .plain _ :: .plain _ :: _ => false
  | _ :: rest => noAdjacentPlain rest
  | [] => true

/-! ## Batch executor (`GenerateWorker.run`, source lines 314-346) -/

/-- The signals `GenerateWorker` emits, plus a `gen i` marker recording
that `generate` completed (wrote its files) for item `i`.  The terminal
events map to the spec's job states: `finishedOk` = Completed,
`finishedCancelled` = Cancelled (the `finished("操作已取消。")` emission of
source line 328), `failed` = Failed (the `error.emit(str(e))` of source
line 346). -/
inductive WEvent where
  | progress (i total : ℕ) (name : String)
  | gen (i : ℕ)
  | finishedOk
  | finishedCancelled
  | failed (msg : String)
deriving DecidableEq, Repr

/-- The loop body of `GenerateWorker.run` (source lines 326-342) from item
index `i`: check the cancellation flag; emit `progress(i, total, name)`;
run `generate` (its outcome is the item's `Except` value — an exception
jumps to the `except` block, emitting `error` and stopping).  `flag i` is
the value of `self.is_cancelled` at the check preceding item `i`. -/
def workerRun (total : ℕ) (flag : ℕ → Bool) :
    ℕ → List (String × Except String Unit) → List WEvent
  | _, [] => [.finishedOk]
  | i, (name, res) :: rest =>
    if flag i then [.finishedCancelled]
    else
      .progress i total name ::
        (match res with
         | .ok _ => .gen i :: workerRun total flag (i + 1) rest
         | .error e => [.failed e])

/-- `GenerateWorker.run`: iterate the batch from index 0 with
`total = len(self.batch)`. -/
def runWorker (batch : List (String × Except String Unit))
    (flag : ℕ → Bool) : List WEvent :=
  workerRun batch.length flag 0 batch

/-! ## Concrete instances used by witnesses and counterexamples -/

/-- Identity-like Pillow primitives for concrete evaluation (no watermark
file present). -/
def idOps : PILOps where
  enhanceBrightness := fun _ i => i
  enhanceContrast := fun _ i => i
  enhanceColor := fun _ i => i
  gaussianBlur := fun _ a => a
  maxFilter3 := fun a => a
  lanczosResize := fun i _ _ => i
  scaleAlpha := fun _ a => a
  loadImage := fun _ => none

/-- Pillow primitives whose loader finds a small opaque watermark image. -/
def wmOps : PILOps :=
  { idOps with loadImage := fun _ => some (constImg 2 2 ⟨9, 9, 9, 255⟩) }

/-- A 3×3 fully opaque image. -/
def imgOpaque3 : Img := constImg 3 3 ⟨5, 6, 7, 255⟩

/-- An 8×8 fully transparent image. -/
def imgClear8 : Img := constImg 8 8 ⟨0, 0, 0, 0⟩

/-- A 1×1 half-transparent image (alpha 128). -/
def imgSemi1 : Img := constImg 1 1 ⟨10, 20, 30, 128⟩

/-- A 1×1 transparent image. -/
def imgA : Img := constImg 1 1 ⟨0, 0, 0, 0⟩

/-- A 2×2 transparent image, distinguishable from `imgA` by width. -/
def imgB : Img := constImg 2 2 ⟨0, 0, 0, 0⟩

/-! ## Helper lemmas -/

theorem dropWhileLengthLe {α : Type} (p : α → Bool) :
    ∀ l : List α, (l.dropWhile p).length ≤ l.length
  | [] => le_refl _
  | a :: l => by
    rw [List.dropWhile_cons]
    split
    · exact le_trans (dropWhileLengthLe p l) (Nat.le_succ _)
    · simp

theorem tryMatch_rest_length {lit s v rest : List Char}
    (h : tryMatch lit s = some (v, rest)) : rest.length < s.length := by
  have key : rest.length + 1 ≤ (s.drop lit.length).length := by
    unfold tryMatch at h
    split at h
    · dsimp only at h
      split at h
      · exact absurd h (by simp)
      · split at h
        · exact absurd h (by simp)
        · split at h
          · next rest' heq =>
            have hle := dropWhileLengthLe (fun c => decide (c ≠ '"'))
              (s.drop lit.length)
            rw [heq] at hle
            simp only [List.length_cons] at hle
            simp only [Option.some.injEq, Prod.mk.injEq] at h
            rcases h with ⟨-, hrest⟩
            subst hrest
            omega
          · exact absurd h (by simp)
    · exact absurd h (by simp)
  have hdrop : (s.drop lit.length).length = s.length - lit.length :=
    List.length_drop _ _
  omega


theorem muldiv255_zero (v : ℕ) : muldiv255 v 0 = 0 := by
  simp [muldiv255]

set_option maxRecDepth 4096 in
theorem muldiv255_full : ∀ v : ℕ, v < 256 → muldiv255 v 255 = v := by decide

theorem blend_mask_zero (x y : ℕ) (hx : x < 256) : blend 0 x y = x := by
  simp [blend, muldiv255_full x hx, muldiv255_zero]

theorem blend_mask_full (x y : ℕ) (hy : y < 256) : blend 255 x y = y := by
  simp [blend, muldiv255_full y hy, muldiv255_zero]

theorem blendPix_mask_zero (d s : RGBA) (h1 : d.r < 256) (h2 : d.g < 256)
    (h3 : d.b < 256) (h4 : d.a < 256) : blendPix 0 d s = d := by
  cases d
  simp_all [blendPix, blend_mask_zero]

theorem blendPix_mask_full (d s : RGBA) (h1 : s.r < 256) (h2 : s.g < 256)
    (h3 : s.b < 256) (h4 : s.a < 256) : blendPix 255 d s = s := by
  cases s
  simp_all [blendPix, blend_mask_full]

/-! ## Claim theorems -/

/-- **C9** (confirmed): for every options record with every effect disabled
(zero brightness/contrast/saturation, no background removal, no background
color, overlay off, effects off, zero padding, watermark off, zero corner
radius), `process_image` returns its RGBA input unchanged — a pure
passthrough — for every library behaviour, hook and availability flag. -/
theorem C9_all_disabled_passthrough (ops : PILOps) (avail : Bool)
    (hook : Option (Img → Except String Img)) (opts : Options) (img : Img)
    (hb : opts.advBrightness = 0) (hc : opts.advContrast = 0)
    (hs : opts.advSaturation = 0) (hrb : opts.removeBg = false)
    (hbg : opts.bgColor = none) (hov : opts.colorOverlayEnabled = false)
    (hfx : opts.advFxEnabled = false) (hpad : opts.padding = 0)
    (hwm : opts.advWatermarkEnabled = false) (hrad : opts.radius = 0) :
    process_image ops avail opts hook img = img := by
  unfold process_image correctionStage removeBgStage bgFillStage
    colorOverlayStage fxStage paddingStage watermarkStage roundingStage
  rw [hb, hc, hs, hrb, hbg, hov, hfx, hpad, hwm, hrad]
  cases hp : opts.advWatermarkPath <;> simp

/-- Witness for C9: a concrete all-defaults options record (all defaults
are the disabled values) on a concrete image. -/
theorem C9_witness : process_image idOps false { } none imgOpaque3 = imgOpaque3 :=
  C9_all_disabled_passthrough idOps false none { } imgOpaque3
    rfl rfl rfl rfl rfl rfl rfl rfl rfl rfl

/-- **C1** counterexample: at a 3×3 image with padding 10%, the code's
`int(3 / 0.9)` yields canvas side 3, while the claimed formula
`ceil(max(w,h) / (1 − p/100)) = ceil(300/90) = (300 + 89) / 90 = 4`
yields 4 — so the padding stage does *not* produce a canvas of the claimed
ceiling size. -/
theorem C1_ceil_counterexample :
    (paddingStage 10 imgOpaque3).width = 3 ∧
    (100 * max imgOpaque3.width imgOpaque3.height + (100 - 10) - 1) /
      (100 - 10) = 4 := by
  constructor
  · rfl
  · rfl

/-- **C1** (amended): for `0 < p ≤ 80` the padding stage produces a
transparent square canvas whose side is `floor(max(w,h) / (1 − p/100))`
(the code truncates via `int(...)`; the claimed `ceil` is wrong), pastes
the image at the centred position `((s−w)//2, (s−h)//2)` — transparent
outside the pasted rectangle, and reproducing every fully opaque source
pixel — and with `p = 0` the stage is skipped entirely. -/
theorem C1_padding_floor (p : ℕ) (img : Img) (x y : ℕ)
    (hp1 : 0 < p) (hp2 : p ≤ 80) :
    (paddingStage p img).width = paddedSize p img ∧
    (paddingStage p img).height = paddedSize p img ∧
    paddingStage 0 img = img ∧
    ((x < (paddedPos p img).1 ∨ (paddedPos p img).1 + img.width ≤ x ∨
      y < (paddedPos p img).2 ∨ (paddedPos p img).2 + img.height ≤ y) →
      (paddingStage p img).pix x y = ⟨0, 0, 0, 0⟩) ∧
    (x < img.width → y < img.height → (img.pix x y).a = 255 →
      (img.pix x y).r < 256 → (img.pix x y).g < 256 → (img.pix x y).b < 256 →
      (paddingStage p img).pix ((paddedPos p img).1 + x)
        ((paddedPos p img).2 + y) = img.pix x y) := by
  refine ⟨?_, ?_, ?_, ?_, ?_⟩
  · unfold paddingStage
    rw [if_pos hp1]
    rfl
  · unfold paddingStage
    rw [if_pos hp1]
    rfl
  · unfold paddingStage
    simp
  · intro hout
    unfold paddingStage
    rw [if_pos hp1]
    show (paste _ img _ _ _).pix x y = ⟨0, 0, 0, 0⟩
    unfold paste
    dsimp only
    rw [if_neg]
    · rfl
    · omega
  · intro hx hy ha hr hg hb
    unfold paddingStage
    rw [if_pos hp1]
    show (paste _ img _ _ _).pix _ _ = img.pix x y
    unfold paste
    dsimp only
    rw [if_pos (by push_cast; omega)]
    have e1 : ((((paddedPos p img).1 + x : ℕ) : ℤ) -
        ((paddedPos p img).1 : ℕ)).toNat = x := by push_cast; omega
    have e2 : ((((paddedPos p img).2 + y : ℕ) : ℤ) -
        ((paddedPos p img).2 : ℕ)).toNat = y := by push_cast; omega
    simp only [e1, e2]
    have hmask : alphaOf img x y = 255 := ha
    rw [hmask]
    exact blendPix_mask_full _ _ hr hg hb (by rw [ha]; omega)

/-- Witness for C1 at padding 10 on the 3×3 opaque image (the pasted
position is `(0,0)`, so pixel `(0,0)` of the output is the source pixel). -/
theorem C1_witness :
    (paddingStage 10 imgOpaque3).width = paddedSize 10 imgOpaque3 ∧
    (paddingStage 10 imgOpaque3).pix 0 0 = imgOpaque3.pix 0 0 := by
  have h := C1_padding_floor 10 imgOpaque3 0 0 (by decide) (by decide)
  exact ⟨h.1, by
    have := h.2.2.2.2 (by decide) (by decide) (by decide) (by decide)
      (by decide) (by decide)
    simpa using this⟩

/-- **C2** counterexample: on an 8×8 *fully transparent* image with corner
radius 100% (pixel radius `8*100/200 = 4 > 0`), the centre pixel `(4,4)` —
inside the rounded rectangle — ends with alpha 255 although it was fully
transparent before the stage: `putalpha` replaces the alpha channel, it
does not intersect with it. -/
theorem C2_intersect_counterexample :
    ((roundingStage 100 imgClear8).pix 4 4).a = 255 ∧
    (imgClear8.pix 4 4).a = 0 := by
  exact ⟨rfl, rfl⟩

/-- **C2** (amended): for radius percent `r > 0` with positive pixel radius
`min(w,h)*r/200`, the rounding stage *replaces* the alpha channel with the
full-canvas rounded-rectangle mask — alpha becomes 255 inside the rounded
rectangle (regardless of the previous alpha) and 0 outside it — while the
RGB channels are unchanged.  (The claim's "intersects with the existing
alpha channel, so fully transparent pixels remain fully transparent" is
false; "every pixel outside the rounded rectangle becomes fully
transparent" is true.) -/
theorem C2_rounding_replaces_alpha (r : ℕ) (img : Img) (x y : ℕ)
    (hr : 0 < r) (hrad : 0 < roundRadius r img) :
    ((roundingStage r img).pix x y).a =
      (if inRoundedRect img.width img.height (roundRadius r img) x y
        then 255 else 0) ∧
    ((roundingStage r img).pix x y).r = (img.pix x y).r ∧
    ((roundingStage r img).pix x y).g = (img.pix x y).g ∧
    ((roundingStage r img).pix x y).b = (img.pix x y).b ∧
    (inRoundedRect img.width img.height (roundRadius r img) x y = false →
      ((roundingStage r img).pix x y).a = 0) := by
  unfold roundingStage
  rw [if_pos hr, if_pos hrad]
  refine ⟨rfl, rfl, rfl, rfl, ?_⟩
  intro h
  simp [h]

/-- Witness for C2: radius 100% on the transparent 8×8 image; the canvas
corner `(0,0)` lies outside the rounded rectangle and ends transparent. -/
theorem C2_witness : ((roundingStage 100 imgClear8).pix 0 0).a = 0 := by
  have h := C2_rounding_replaces_alpha 100 imgClear8 0 0 (by decide) (by decide)
  exact h.2.2.2.2 (by decide)

/-- **C3** counterexample: on a 1×1 image with alpha 128, the overlay stage
changes the pixel's alpha from 128 to 192 — `img.paste(overlay, (0,0),
alpha)` blends *all* bands, including alpha, so the alpha channel is not
left exactly unchanged. -/
theorem C3_alpha_counterexample :
    ((colorOverlayStage true ⟨200, 100, 50⟩ imgSemi1).pix 0 0).a = 192 ∧
    (imgSemi1.pix 0 0).a = 128 := by
  exact ⟨rfl, rfl⟩

/-- **C3** (amended): the overlay stage sets each pixel's alpha to
`BLEND(a; a, 255)` (Pillow's paste blend of the old alpha toward the
overlay's opaque alpha under the old alpha as mask) — so alpha is
preserved exactly only at 0 and 255 — leaves fully transparent pixels
entirely unchanged, and sets every fully opaque pixel to exactly the
configured overlay color. -/
theorem C3_overlay_alpha (c : RGB) (img : Img) (x y : ℕ)
    (hx : x < img.width) (hy : y < img.height)
    (hcr : c.r < 256) (hcg : c.g < 256) (hcb : c.b < 256)
    (hr : (img.pix x y).r < 256) (hg : (img.pix x y).g < 256)
    (hb : (img.pix x y).b < 256) (ha : (img.pix x y).a < 256) :
    ((colorOverlayStage true c img).pix x y).a =
      blend ((img.pix x y).a) ((img.pix x y).a) 255 ∧
    ((img.pix x y).a = 0 →
      (colorOverlayStage true c img).pix x y = img.pix x y) ∧
    ((img.pix x y).a = 255 →
      (colorOverlayStage true c img).pix x y = ⟨c.r, c.g, c.b, 255⟩) := by
  unfold colorOverlayStage
  rw [if_pos rfl]
  dsimp only
  unfold paste constImg
  dsimp only
  rw [if_pos (by omega)]
  have e1 : (((x : ℕ) : ℤ) - 0).toNat = x := by omega
  have e2 : (((y : ℕ) : ℤ) - 0).toNat = y := by omega
  simp only [e1, e2]
  refine ⟨rfl, ?_, ?_⟩
  · intro h0
    rw [show alphaOf img x y = 0 from h0]
    exact blendPix_mask_zero _ _ hr hg hb ha
  · intro h255
    rw [show alphaOf img x y = 255 from h255]
    exact blendPix_mask_full _ _ hcr hcg hcb (by simp)

/-- Witness for C3 on a fully opaque image: the opaque pixel is replaced by
exactly the overlay color. -/
theorem C3_witness :
    (colorOverlayStage true ⟨200, 100, 50⟩ imgOpaque3).pix 0 0 =
      ⟨200, 100, 50, 255⟩ := by
  have h := C3_overlay_alpha ⟨200, 100, 50⟩ imgOpaque3 0 0 (by decide)
    (by decide) (by decide) (by decide) (by decide) (by decide) (by decide)
    (by decide) (by decide)
  exact h.2.2 (by decide)

/-- **C4** (confirmed): with the effect enabled in shadow mode, the shadow
stage returns a canvas of size exactly `(w + |offsetX| + 2·blur,
h + |offsetY| + 2·blur)`; the blurred shadow is pasted at
`(blur + max(offsetX,0), blur + max(offsetY,0))`, the original image on
top at `(blur − min(offsetX,0), blur − min(offsetY,0))`, and both paste
rectangles lie fully inside the canvas for every sign combination of the
offsets. -/
theorem C4_shadow_geometry (ops : PILOps) (opts : Options) (img : Img)
    (he : opts.advFxEnabled = true) (hm : opts.advFxMode = "shadow") :
    (fxStage ops opts img).width =
      img.width + opts.advShadowOffsetX.natAbs + 2 * opts.advShadowBlur ∧
    (fxStage ops opts img).height =
      img.height + opts.advShadowOffsetY.natAbs + 2 * opts.advShadowBlur ∧
    shadowPastePos opts.advShadowBlur opts.advShadowOffsetX
        opts.advShadowOffsetY =
      ((opts.advShadowBlur : ℤ) + max opts.advShadowOffsetX 0,
       (opts.advShadowBlur : ℤ) + max opts.advShadowOffsetY 0) ∧
    imgPastePos opts.advShadowBlur opts.advShadowOffsetX
        opts.advShadowOffsetY =
      ((opts.advShadowBlur : ℤ) - min opts.advShadowOffsetX 0,
       (opts.advShadowBlur : ℤ) - min opts.advShadowOffsetY 0) ∧
    (0 ≤ ((opts.advShadowBlur : ℤ) + max opts.advShadowOffsetX 0) ∧
     (opts.advShadowBlur : ℤ) + max opts.advShadowOffsetX 0 + img.width ≤
       (img.width + opts.advShadowOffsetX.natAbs + 2 * opts.advShadowBlur : ℕ) ∧
     0 ≤ ((opts.advShadowBlur : ℤ) + max opts.advShadowOffsetY 0) ∧
     (opts.advShadowBlur : ℤ) + max opts.advShadowOffsetY 0 + img.height ≤
       (img.height + opts.advShadowOffsetY.natAbs + 2 * opts.advShadowBlur : ℕ)) ∧
    (0 ≤ ((opts.advShadowBlur : ℤ) - min opts.advShadowOffsetX 0) ∧
     (opts.advShadowBlur : ℤ) - min opts.advShadowOffsetX 0 + img.width ≤
       (img.width + opts.advShadowOffsetX.natAbs + 2 * opts.advShadowBlur : ℕ) ∧
     0 ≤ ((opts.advShadowBlur : ℤ) - min opts.advShadowOffsetY 0) ∧
     (opts.advShadowBlur : ℤ) - min opts.advShadowOffsetY 0 + img.height ≤
       (img.height + opts.advShadowOffsetY.natAbs + 2 * opts.advShadowBlur : ℕ)) := by
  refine ⟨?_, ?_, ?_, ?_, ?_, ?_⟩
  · unfold fxStage
    rw [he, if_pos rfl, if_pos hm]
    show (paste (paste _ _ _ _ _) _ _ _ _).width = _
    unfold paste constImg
    dsimp only
    omega
  · unfold fxStage
    rw [he, if_pos rfl, if_pos hm]
    show (paste (paste _ _ _ _ _) _ _ _ _).height = _
    unfold paste constImg
    dsimp only
    omega
  · unfold shadowPastePos
    refine Prod.ext ?_ ?_ <;> dsimp only <;> split <;> omega
  · unfold imgPastePos
    refine Prod.ext ?_ ?_ <;> dsimp only <;> split <;> omega
  · refine ⟨?_, ?_, ?_, ?_⟩ <;> omega
  · refine ⟨?_, ?_, ?_, ?_⟩ <;> omega

/-- Witness for C4 at blur 2, offsets (−3, 4) on a 5×7 image. -/
theorem C4_witness :
    (fxStage idOps
      { advFxEnabled := true, advFxMode := "shadow", advShadowBlur := 2,
        advShadowOffsetX := -3, advShadowOffsetY := 4 }
      (constImg 5 7 ⟨1, 2, 3, 255⟩)).width = 12 ∧
    (fxStage idOps
      { advFxEnabled := true, advFxMode := "shadow", advShadowBlur := 2,
        advShadowOffsetX := -3, advShadowOffsetY := 4 }
      (constImg 5 7 ⟨1, 2, 3, 255⟩)).height = 15 := by
  have h := C4_shadow_geometry idOps
    { advFxEnabled := true, advFxMode := "shadow", advShadowBlur := 2,
      advShadowOffsetX := -3, advShadowOffsetY := 4 }
    (constImg 5 7 ⟨1, 2, 3, 255⟩) rfl rfl
  exact ⟨by rw [h.1]; rfl, by rw [h.2.1]; rfl⟩

/-- **C5** counterexample: with `remove_bg` enabled and a hook present that
returns a 2×2 image, but the module-level `REMBG_AVAILABLE` flag false (its
value until the asynchronous initializer succeeds), the stage does *not*
invoke the hook — the image stays the 1×1 input, not the hook's 2×2 output.
So "the hook being enabled and present is the only condition for invoking
it" is false: the availability flag is a third condition. -/
theorem C5_flag_counterexample :
    removeBgStage true false (some fun _ => .ok imgB) imgA = imgA ∧
    imgB.width ≠ imgA.width := by
  exact ⟨rfl, by decide⟩

/-- **C5** (amended): the hook is invoked only when `remove_bg` is enabled
*and* the global `REMBG_AVAILABLE` flag is true *and* the hook is present;
when all three hold, the image is replaced by the hook's output, a raising
hook is caught at the stage boundary (processing continues with the
unmodified image), and an absent hook makes the stage a no-op. -/
theorem C5_remove_bg_conditions (enabled avail : Bool)
    (hook : Option (Img → Except String Img))
    (f : Img → Except String Img) (img out : Img) (e : String) :
    (avail = false → removeBgStage enabled avail hook img = img) ∧
    (f img = .ok out → removeBgStage true true (some f) img = out) ∧
    (f img = .error e → removeBgStage true true (some f) img = img) ∧
    removeBgStage enabled avail none img = img := by
  refine ⟨?_, ?_, ?_, ?_⟩
  · intro h
    subst h
    simp [removeBgStage]
  · intro h
    simp [removeBgStage, h]
  · intro h
    simp [removeBgStage, h]
  · simp [removeBgStage]

/-- Witness for C5: a hook that succeeds with a 2×2 image replaces the 1×1
input when enabled, available and present. -/
theorem C5_witness :
    removeBgStage true true (some fun _ => .ok imgB) imgA = imgB := by
  have h := C5_remove_bg_conditions true true (some fun _ => .ok imgB)
    (fun _ => .ok imgB) imgA imgB "e"
  exact h.2.1 rfl

/-- **C10** (confirmed): with the watermark enabled, a loadable watermark
path, and a position string that is none of the nine anchor names, the
dictionary lookup falls back to the *string* `'bottom_right'` (not a
coordinate pair); the resulting `img.paste` type error is caught by the
stage's `try/except`, so the watermark stage leaves the image unchanged
and does not fail. -/
theorem C10_watermark_bad_position (ops : PILOps) (opts : Options)
    (img wm : Img) (path : String) (w h ww wh : ℕ)
    (hen : opts.advWatermarkEnabled = true)
    (hpath : opts.advWatermarkPath = some path)
    (hload : ops.loadImage path = some wm)
    (hpos : opts.advWatermarkPos ∉
      (["top_left", "top_center", "top_right", "mid_left", "center",
        "mid_right", "bottom_left", "bottom_center",
        "bottom_right"] : List String)) :
    watermarkStage ops opts img = img ∧
    watermarkPosLookup (posMapList w h ww wh) opts.advWatermarkPos =
      .fallbackStr "bottom_right" := by
  simp only [List.mem_cons, List.not_mem_nil, or_false, not_or] at hpos
  obtain ⟨h1, h2, h3, h4, h5, h6, h7, h8, h9⟩ := hpos
  have hne : ∀ a b cc d : ℕ,
      (posMapList a b cc d).lookup opts.advWatermarkPos = none := by
    intro a b cc d
    have b1 : (opts.advWatermarkPos == "top_left") = false :=
      beq_eq_false_iff_ne.mpr h1
    have b2 : (opts.advWatermarkPos == "top_center") = false :=
      beq_eq_false_iff_ne.mpr h2
    have b3 : (opts.advWatermarkPos == "top_right") = false :=
      beq_eq_false_iff_ne.mpr h3
    have b4 : (opts.advWatermarkPos == "mid_left") = false :=
      beq_eq_false_iff_ne.mpr h4
    have b5 : (opts.advWatermarkPos == "center") = false :=
      beq_eq_false_iff_ne.mpr h5
    have b6 : (opts.advWatermarkPos == "mid_right") = false :=
      beq_eq_false_iff_ne.mpr h6
    have b7 : (opts.advWatermarkPos == "bottom_left") = false :=
      beq_eq_false_iff_ne.mpr h7
    have b8 : (opts.advWatermarkPos == "bottom_center") = false :=
      beq_eq_false_iff_ne.mpr h8
    have b9 : (opts.advWatermarkPos == "bottom_right") = false :=
      beq_eq_false_iff_ne.mpr h9
    simp [posMapList, List.lookup, b1, b2, b3, b4, b5, b6, b7, b8, b9]
  constructor
  · unfold watermarkStage
    rw [hpath]
    simp only [hen, if_true]
    rw [hload]
    simp [watermarkPosLookup, hne]
  · simp [watermarkPosLookup, hne]

/-- Witness for C10 with position string `"middle"`. -/
theorem C10_witness :
    watermarkStage wmOps
      { advWatermarkEnabled := true, advWatermarkPath := some "wm.png",
        advWatermarkPos := "middle" } imgOpaque3 = imgOpaque3 := by
  have h := C10_watermark_bad_position wmOps
    { advWatermarkEnabled := true, advWatermarkPath := some "wm.png",
      advWatermarkPos := "middle" } imgOpaque3 (constImg 2 2 ⟨9, 9, 9, 255⟩)
    "wm.png" 1 1 1 1 rfl rfl rfl (by decide)
  exact h.1

/-! ### Lemmas about the SVG substitution -/

theorem tryMatch_nil (lit : List Char) : tryMatch lit [] = none := by
  cases lit <;> rfl

theorem subAttrF_nil (lit color : List Char) :
    ∀ f : ℕ, subAttrF lit color f [] = []
  | 0 => rfl
  | f + 1 => by simp [subAttrF, tryMatch_nil]

theorem subAttr_nil (lit color : List Char) : subAttr lit color [] = [] := rfl

theorem subAttrF_irrel (lit color : List Char) :
    ∀ (f1 : ℕ) (s : List Char) (f2 : ℕ), s.length ≤ f1 → s.length ≤ f2 →
      subAttrF lit color f1 s = subAttrF lit color f2 s
  | 0, s, f2, h1, _ => by
    have hs : s = [] := List.length_eq_zero.mp (Nat.le_zero.mp h1)
    subst hs
    rw [subAttrF_nil, subAttrF_nil]
  | f1 + 1, s, f2, h1, h2 => by
    cases s with
    | nil => rw [subAttrF_nil, subAttrF_nil]
    | cons c cs =>
      obtain ⟨f2', rfl⟩ : ∃ f2', f2 = f2' + 1 :=
        ⟨f2 - 1, by simp at h2; omega⟩
      cases htm : tryMatch lit (c :: cs) with
      | some p =>
        obtain ⟨v, rest⟩ := p
        have hlt := tryMatch_rest_length htm
        simp only [subAttrF, htm]
        rw [subAttrF_irrel lit color f1 rest f2'
          (by simp at hlt h1 ⊢; omega) (by simp at hlt h2 ⊢; omega)]
      | none =>
        simp only [subAttrF, htm]
        rw [subAttrF_irrel lit color f1 cs f2'
          (by simp at h1; omega) (by simp at h2; omega)]

theorem subAttr_cons_none {lit color : List Char} {c : Char} {cs : List Char}
    (h : tryMatch lit (c :: cs) = none) :
    subAttr lit color (c :: cs) = c :: subAttr lit color cs := by
  unfold subAttr
  simp [subAttrF, h]

theorem subAttr_some {lit color s v rest : List Char}
    (h : tryMatch lit s = some (v, rest)) :
    subAttr lit color s = lit ++ color ++ '"' :: subAttr lit color rest := by
  have hlt := tryMatch_rest_length h
  unfold subAttr
  obtain ⟨n, hn⟩ : ∃ n, s.length = n + 1 := ⟨s.length - 1, by omega⟩
  rw [hn]
  simp only [subAttrF, h]
  rw [subAttrF_irrel lit color n rest rest.length (by omega) (le_refl _)]

theorem tryMatch_some_quotes {lit s v rest : List Char}
    (hlit : 1 ≤ lit.count '"') (h : tryMatch lit s = some (v, rest)) :
    2 ≤ s.count '"' := by
  unfold tryMatch at h
  split at h
  case isTrue hpre =>
    dsimp only at h
    split at h
    · exact absurd h (by simp)
    · split at h
      · exact absurd h (by simp)
      · split at h
        · next rest' heq =>
          obtain ⟨t, rfl⟩ : ∃ t, lit ++ t = s := List.isPrefixOf_iff_prefix.mp hpre
          rw [List.drop_left] at heq
          have h2 : t.count '"' =
              (t.takeWhile (fun c => c ≠ '"')).count '"' +
              ('"' :: rest').count '"' := by
            conv_lhs => rw [← List.takeWhile_append_dropWhile
              (p := fun c => c ≠ '"') (l := t)]
            rw [List.count_append, heq]
          have h3 : 1 ≤ ('"' :: rest').count '"' := by simp [List.count_cons]
          rw [List.count_append]
          omega
        · exact absurd h (by simp)
  case isFalse => exact absurd h (by simp)

theorem subAttr_le_one_quote (lit color : List Char) (hlit : 1 ≤ lit.count '"') :
    ∀ s : List Char, s.count '"' ≤ 1 → subAttr lit color s = s
  | [], _ => subAttr_nil lit color
  | c :: cs, hs => by
    have hnone : tryMatch lit (c :: cs) = none := by
      cases htm : tryMatch lit (c :: cs) with
      | none => rfl
      | some p =>
        obtain ⟨v, rest⟩ := p
        have := tryMatch_some_quotes hlit htm
        omega
    rw [subAttr_cons_none hnone]
    have hcs : cs.count '"' ≤ 1 := by
      by_cases hc : c = '"' <;> simp [List.count_cons, hc] at hs ⊢ <;> omega
    rw [subAttr_le_one_quote lit color hlit cs hcs]

theorem isPrefixOf_append_quote :
    ∀ pat : List Char, (∀ c ∈ pat, c ≠ '"') →
    ∀ v : List Char, (∀ c ∈ v, c ≠ '"') → ∀ D : List Char,
      pat.isPrefixOf (v ++ '"' :: D) = pat.isPrefixOf v
  | [], _, v, _, _ => by cases v <;> rfl
  | p :: ps, hpat, [], _, D => by
    have hp : p ≠ '"' := hpat p (by simp)
    simp [List.isPrefixOf, hp]
  | p :: ps, hpat, a :: v', hv, D => by
    have ih := isPrefixOf_append_quote ps
      (fun c hc => hpat c (by simp [hc])) v'
      (fun c hc => hv c (by simp [hc])) D
    simp [List.isPrefixOf, ih]

theorem lookaheadBlocked_append_quote (v : List Char)
    (hv : ∀ c ∈ v, c ≠ '"') (D : List Char) :
    lookaheadBlocked (v ++ '"' :: D) = lookaheadBlocked v := by
  unfold lookaheadBlocked
  rw [isPrefixOf_append_quote ['n', 'o', 'n', 'e'] (by decide) v hv D,
      isPrefixOf_append_quote ['u', 'r', 'l'] (by decide) v hv D]

theorem takeWhile_append_quote :
    ∀ v : List Char, (∀ c ∈ v, c ≠ '"') → ∀ D : List Char,
      (v ++ '"' :: D).takeWhile (fun c => c ≠ '"') = v
  | [], _, _ => rfl
  | a :: v', hv, D => by
    have ha : a ≠ '"' := hv a (by simp)
    rw [List.cons_append, List.takeWhile_cons_of_pos (by simp [ha]),
      takeWhile_append_quote v' (fun c hc => hv c (by simp [hc])) D]

theorem dropWhile_append_quote :
    ∀ v : List Char, (∀ c ∈ v, c ≠ '"') → ∀ D : List Char,
      (v ++ '"' :: D).dropWhile (fun c => c ≠ '"') = '"' :: D
  | [], _, _ => rfl
  | a :: v', hv, D => by
    have ha : a ≠ '"' := hv a (by simp)
    rw [List.cons_append, List.dropWhile_cons_of_pos (by simp [ha]),
      dropWhile_append_quote v' (fun c hc => hv c (by simp [hc])) D]

theorem tryMatch_append_match (lit v : List Char)
    (hv : ∀ c ∈ v, c ≠ '"') (hne : v ≠ []) (D : List Char)
    (hb : lookaheadBlocked (v ++ '"' :: D) = false) :
    tryMatch lit (lit ++ (v ++ '"' :: D)) = some (v, D) := by
  unfold tryMatch
  rw [if_pos (List.isPrefixOf_iff_prefix.mpr ⟨v ++ '"' :: D, rfl⟩)]
  dsimp only
  rw [List.drop_left, hb]
  simp only [Bool.false_eq_true, if_false]
  rw [takeWhile_append_quote v hv D, dropWhile_append_quote v hv D]
  have hie : v.isEmpty = false := by
    cases v
    · exact absurd rfl hne
    · rfl
  simp [hie]

theorem tryMatch_append_blocked (lit v D : List Char)
    (hb : lookaheadBlocked (v ++ '"' :: D) = true) :
    tryMatch lit (lit ++ (v ++ '"' :: D)) = none := by
  unfold tryMatch
  rw [if_pos (List.isPrefixOf_iff_prefix.mpr ⟨v ++ '"' :: D, rfl⟩)]
  dsimp only
  rw [List.drop_left, hb]
  simp

theorem tryMatch_cons_ne (l0 : Char) (ls : List Char) (c : Char)
    (cs : List Char) (h : l0 ≠ c) : tryMatch (l0 :: ls) (c :: cs) = none := by
  have hf : ((l0 :: ls).isPrefixOf (c :: cs)) = false := by
    simp [List.isPrefixOf, h]
  unfold tryMatch
  rw [hf]
  simp

theorem tryMatch_strokeLit_cons (c : Char) (cs : List Char)
    (h : ('s' : Char) ≠ c) : tryMatch strokeLit (c :: cs) = none :=
  tryMatch_cons_ne 's' _ c cs h

theorem tryMatch_fillLit_cons (c : Char) (cs : List Char)
    (h : ('f' : Char) ≠ c) : tryMatch fillLit (c :: cs) = none :=
  tryMatch_cons_ne 'f' _ c cs h

theorem tryMatch_none_of_no_lit {lit s : List Char}
    (h : lit.isPrefixOf s = false) : tryMatch lit s = none := by
  unfold tryMatch
  rw [h]
  simp

theorem not_contains_quote {v : List Char} (h : v.contains '"' = false) :
    ∀ c ∈ v, c ≠ '"' := by
  intro c hc he
  subst he
  simp at h
  exact h hc

theorem isSuffixOf_cons_of {pre v : List Char} {a : Char}
    (h : pre.isSuffixOf v = true) : pre.isSuffixOf (a :: v) = true := by
  rw [List.isSuffixOf_iff_suffix] at h ⊢
  exact h.trans (List.suffix_cons a v)

theorem isSuffixOf_cons_false {pre v : List Char} {a : Char}
    (h : pre.isSuffixOf (a :: v) = false) : pre.isSuffixOf v = false := by
  cases hsv : pre.isSuffixOf v
  · rfl
  · have hc := isSuffixOf_cons_of (a := a) hsv
    rw [h] at hc
    exact Bool.noConfusion hc

/-- A pattern `pre ++ ['"']` (quote-free `pre`) cannot match at a strict
position inside a quote-free value `v` running up to the value's closing
quote, unless `v` itself is exactly `pre` — the only way the pattern's
quote can align with the closing quote. -/
theorem litPrefix_quote_ne :
    ∀ pre : List Char, (∀ c ∈ pre, c ≠ '"') →
    ∀ v : List Char, (∀ c ∈ v, c ≠ '"') → v ≠ [] → v ≠ pre →
    ∀ D : List Char,
      ((pre ++ ['"']).isPrefixOf (v ++ '"' :: D)) = false
  | _, _, [], _, hne, _, _ => absurd rfl hne
  | [], _, a :: v', hv, _, _, D => by
    have ha : a ≠ '"' := hv a (by simp)
    simp [List.isPrefixOf, Ne.symm ha]
  | p :: pre', hpre, a :: v', hv, _, hvp, D => by
    by_cases hpa : p = a
    · subst hpa
      cases v' with
      | nil =>
        cases pre' with
        | nil => exact absurd rfl hvp
        | cons q pre'' =>
          have hq : q ≠ '"' := hpre q (by simp)
          simp [List.isPrefixOf, hq]
      | cons b v'' =>
        have hvp' : b :: v'' ≠ pre' := by
          intro h
          exact hvp (by rw [h])
        have ih := litPrefix_quote_ne pre'
          (fun c hc => hpre c (by simp [hc])) (b :: v'')
          (fun c hc => hv c (by simp [hc])) (by simp) hvp' D
        simp only [List.cons_append] at ih
        simp [List.isPrefixOf, ih]
    · simp [List.isPrefixOf, hpa]

/-- A pattern `pre ++ ['"']` (quote-free `pre`) cannot match starting
inside a nonempty quote-free segment `b` that is followed by text `D`
that is empty or starts with a character distinct from `'"'` and from
every character of `pre` after its first. -/
theorem prefix_overlap_false :
    ∀ pre : List Char, (∀ c ∈ pre, c ≠ '"') →
    ∀ b : List Char, b ≠ [] → (∀ c ∈ b, c ≠ '"') →
    ∀ D : List Char,
      (D = [] ∨ ∃ d D', D = d :: D' ∧ d ≠ '"' ∧ d ∉ pre.drop 1) →
      ((pre ++ ['"']).isPrefixOf (b ++ D)) = false
  | _, _, [], hbne, _, _, _ => absurd rfl hbne
  | [], _, b0 :: b', _, hb, D, _ => by
    have h0 : b0 ≠ '"' := hb b0 (by simp)
    simp [List.isPrefixOf, Ne.symm h0]
  | p :: pre', hpre, b0 :: b', _, hb, D, hD => by
    by_cases hpb : p = b0
    · subst hpb
      cases b' with
      | nil =>
        rcases hD with rfl | ⟨d, D', rfl, hd1, hd2⟩
        · cases pre' <;> simp [List.isPrefixOf]
        · cases pre' with
          | nil =>
            simp [List.isPrefixOf, Ne.symm hd1]
          | cons q pre'' =>
            have hq : q ≠ d := by
              intro h
              exact hd2 (by simp [h])
            simp [List.isPrefixOf, hq]
      | cons b1 b'' =>
        have hD' : D = [] ∨ ∃ d D', D = d :: D' ∧ d ≠ '"' ∧
            d ∉ pre'.drop 1 := by
          rcases hD with rfl | ⟨d, D', rfl, hd1, hd2⟩
          · exact Or.inl rfl
          · refine Or.inr ⟨d, D', rfl, hd1, fun hmem => hd2 ?_⟩
            show d ∈ pre'
            exact List.mem_of_mem_drop hmem
        have ih := prefix_overlap_false pre'
          (fun c hc => hpre c (by simp [hc])) (b1 :: b'') (by simp)
          (fun c hc => hb c (by simp [hc])) D hD'
        simp only [List.cons_append] at ih
        simp [List.isPrefixOf, ih]
    · simp [List.isPrefixOf, hpb]

/-- The scanner walks through a quote-free value `v` up to its closing
quote without matching (the value does not end in the pattern's literal),
leaving `v` and the quote untouched and continuing after the quote. -/
theorem subAttr_skip_value :
    ∀ (pre color : List Char), (∀ c ∈ pre, c ≠ '"') → pre ≠ [] →
    ∀ (v D : List Char), (∀ c ∈ v, c ≠ '"') →
      (pre.isSuffixOf v) = false →
      subAttr (pre ++ ['"']) color (v ++ '"' :: D) =
        v ++ '"' :: subAttr (pre ++ ['"']) color D
  | pre, color, hpre, hpre0, [], D, _, _ => by
    cases pre with
    | nil => exact absurd rfl hpre0
    | cons p pre' =>
      have hp : p ≠ '"' := hpre p (by simp)
      simp only [List.nil_append]
      rw [subAttr_cons_none (tryMatch_none_of_no_lit
        (by simp [List.isPrefixOf, hp]))]
  | pre, color, hpre, hpre0, a :: v', D, hv, hs => by
    have hvp : (a :: v') ≠ pre := by
      intro h
      rw [h] at hs
      have hrefl : pre.isSuffixOf pre = true := by
        simp [List.isSuffixOf_iff_suffix]
      rw [hrefl] at hs
      exact Bool.noConfusion hs
    have hpref := litPrefix_quote_ne pre hpre (a :: v') hv (by simp) hvp D
    simp only [List.cons_append] at hpref ⊢
    rw [subAttr_cons_none (tryMatch_none_of_no_lit hpref)]
    rw [subAttr_skip_value pre color hpre hpre0 v' D
      (fun c hc => hv c (by simp [hc])) (isSuffixOf_cons_false hs)]

theorem subAttr_skip_value_fill (color v D : List Char)
    (hv : ∀ c ∈ v, c ≠ '"')
    (hs : (['f', 'i', 'l', 'l', '='].isSuffixOf v) = false) :
    subAttr fillLit color (v ++ '"' :: D) =
      v ++ '"' :: subAttr fillLit color D :=
  subAttr_skip_value ['f', 'i', 'l', 'l', '='] color (by decide) (by decide)
    v D hv hs

theorem subAttr_skip_value_stroke (color v D : List Char)
    (hv : ∀ c ∈ v, c ≠ '"')
    (hs : (['s', 't', 'r', 'o', 'k', 'e', '='].isSuffixOf v) = false) :
    subAttr strokeLit color (v ++ '"' :: D) =
      v ++ '"' :: subAttr strokeLit color D :=
  subAttr_skip_value ['s', 't', 'r', 'o', 'k', 'e', '='] color (by decide)
    (by decide) v D hv hs

/-- The scanner walks through quote-free plain text without matching,
provided the following text is empty or starts with an attribute head. -/
theorem subAttr_skip_plain :
    ∀ (pre color : List Char), (∀ c ∈ pre, c ≠ '"') →
    ∀ (t D : List Char), (∀ c ∈ t, c ≠ '"') →
      (D = [] ∨ ∃ d D', D = d :: D' ∧ d ≠ '"' ∧ d ∉ pre.drop 1) →
      subAttr (pre ++ ['"']) color (t ++ D) =
        t ++ subAttr (pre ++ ['"']) color D
  | _, _, _, [], _, _, _ => by simp
  | pre, color, hpre, t0 :: t', D, ht, hD => by
    have hpref := prefix_overlap_false pre hpre (t0 :: t') (by simp) ht D hD
    simp only [List.cons_append] at hpref ⊢
    rw [subAttr_cons_none (tryMatch_none_of_no_lit hpref)]
    rw [subAttr_skip_plain pre color hpre t' D
      (fun c hc => ht c (by simp [hc])) hD]

theorem subAttr_skip_plain_fill (color t D : List Char)
    (ht : ∀ c ∈ t, c ≠ '"')
    (hD : D = [] ∨ ∃ d D', D = d :: D' ∧ d ≠ '"' ∧
      d ∉ (['f', 'i', 'l', 'l', '='] : List Char).drop 1) :
    subAttr fillLit color (t ++ D) = t ++ subAttr fillLit color D :=
  subAttr_skip_plain ['f', 'i', 'l', 'l', '='] color (by decide) t D ht hD

theorem subAttr_skip_plain_stroke (color t D : List Char)
    (ht : ∀ c ∈ t, c ≠ '"')
    (hD : D = [] ∨ ∃ d D', D = d :: D' ∧ d ≠ '"' ∧
      d ∉ (['s', 't', 'r', 'o', 'k', 'e', '='] : List Char).drop 1) :
    subAttr strokeLit color (t ++ D) = t ++ subAttr strokeLit color D :=
  subAttr_skip_plain ['s', 't', 'r', 'o', 'k', 'e', '='] color (by decide)
    t D ht hD

theorem goodVal_quote {v : List Char} (h : goodVal v = true) :
    ∀ c ∈ v, c ≠ '"' := by
  simp [goodVal] at h
  intro c hc he
  subst he
  exact h.1.1.2 hc

theorem goodVal_ne_nil {v : List Char} (h : goodVal v = true) : v ≠ [] := by
  simp [goodVal] at h
  exact h.1.1.1

theorem goodVal_fill_suffix {v : List Char} (h : goodVal v = true) :
    (['f', 'i', 'l', 'l', '='].isSuffixOf v) = false := by
  simp [goodVal] at h
  exact h.1.2

theorem goodVal_stroke_suffix {v : List Char} (h : goodVal v = true) :
    (['s', 't', 'r', 'o', 'k', 'e', '='].isSuffixOf v) = false := by
  simp [goodVal] at h
  exact h.2

/-- The fill pass walks over a whole `stroke="v"` attribute without
firing. -/
theorem subAttr_fill_skip_strokeAttr (color v D : List Char)
    (hv : ∀ c ∈ v, c ≠ '"')
    (hs : (['f', 'i', 'l', 'l', '='].isSuffixOf v) = false) :
    subAttr fillLit color (strokeLit ++ (v ++ '"' :: D)) =
      strokeLit ++ (v ++ '"' :: subAttr fillLit color D) := by
  show subAttr fillLit color
      ('s' :: 't' :: 'r' :: 'o' :: 'k' :: 'e' :: '=' :: '"' ::
        (v ++ '"' :: D)) = _
  rw [subAttr_cons_none (tryMatch_fillLit_cons 's' _ (by decide)),
      subAttr_cons_none (tryMatch_fillLit_cons 't' _ (by decide)),
      subAttr_cons_none (tryMatch_fillLit_cons 'r' _ (by decide)),
      subAttr_cons_none (tryMatch_fillLit_cons 'o' _ (by decide)),
      subAttr_cons_none (tryMatch_fillLit_cons 'k' _ (by decide)),
      subAttr_cons_none (tryMatch_fillLit_cons 'e' _ (by decide)),
      subAttr_cons_none (tryMatch_fillLit_cons '=' _ (by decide)),
      subAttr_cons_none (tryMatch_fillLit_cons '"' _ (by decide)),
      subAttr_skip_value_fill color v D hv hs]
  rfl

/-- The stroke pass walks over a whole `fill="v"` attribute without
firing. -/
theorem subAttr_stroke_skip_fillAttr (color v D : List Char)
    (hv : ∀ c ∈ v, c ≠ '"')
    (hs : (['s', 't', 'r', 'o', 'k', 'e', '='].isSuffixOf v) = false) :
    subAttr strokeLit color (fillLit ++ (v ++ '"' :: D)) =
      fillLit ++ (v ++ '"' :: subAttr strokeLit color D) := by
  show subAttr strokeLit color
      ('f' :: 'i' :: 'l' :: 'l' :: '=' :: '"' :: (v ++ '"' :: D)) = _
  rw [subAttr_cons_none (tryMatch_strokeLit_cons 'f' _ (by decide)),
      subAttr_cons_none (tryMatch_strokeLit_cons 'i' _ (by decide)),
      subAttr_cons_none (tryMatch_strokeLit_cons 'l' _ (by decide)),
      subAttr_cons_none (tryMatch_strokeLit_cons 'l' _ (by decide)),
      subAttr_cons_none (tryMatch_strokeLit_cons '=' _ (by decide)),
      subAttr_cons_none (tryMatch_strokeLit_cons '"' _ (by decide)),
      subAttr_skip_value_stroke color v D hv hs]
  rfl

/-- The fill pass walks over a lookahead-blocked `fill="v"` attribute
without firing. -/
theorem subAttr_fill_skip_fillAttr_blocked (color v D : List Char)
    (hv : ∀ c ∈ v, c ≠ '"')
    (hs : (['f', 'i', 'l', 'l', '='].isSuffixOf v) = false)
    (hb : lookaheadBlocked v = true) :
    subAttr fillLit color (fillLit ++ (v ++ '"' :: D)) =
      fillLit ++ (v ++ '"' :: subAttr fillLit color D) := by
  have hb' : lookaheadBlocked (v ++ '"' :: D) = true := by
    rw [lookaheadBlocked_append_quote v hv D]
    exact hb
  show subAttr fillLit color
      ('f' :: 'i' :: 'l' :: 'l' :: '=' :: '"' :: (v ++ '"' :: D)) = _
  rw [subAttr_cons_none
        (show tryMatch fillLit
            ('f' :: 'i' :: 'l' :: 'l' :: '=' :: '"' :: (v ++ '"' :: D)) =
            none from tryMatch_append_blocked fillLit v D hb'),
      subAttr_cons_none (tryMatch_fillLit_cons 'i' _ (by decide)),
      subAttr_cons_none (tryMatch_fillLit_cons 'l' _ (by decide)),
      subAttr_cons_none (tryMatch_fillLit_cons 'l' _ (by decide)),
      subAttr_cons_none (tryMatch_fillLit_cons '=' _ (by decide)),
      subAttr_cons_none (tryMatch_fillLit_cons '"' _ (by decide)),
      subAttr_skip_value_fill color v D hv hs]
  rfl

/-- The stroke pass walks over a lookahead-blocked `stroke="v"` attribute
without firing. -/
theorem subAttr_stroke_skip_strokeAttr_blocked (color v D : List Char)
    (hv : ∀ c ∈ v, c ≠ '"')
    (hs : (['s', 't', 'r', 'o', 'k', 'e', '='].isSuffixOf v) = false)
    (hb : lookaheadBlocked v = true) :
    subAttr strokeLit color (strokeLit ++ (v ++ '"' :: D)) =
      strokeLit ++ (v ++ '"' :: subAttr strokeLit color D) := by
  have hb' : lookaheadBlocked (v ++ '"' :: D) = true := by
    rw [lookaheadBlocked_append_quote v hv D]
    exact hb
  show subAttr strokeLit color
      ('s' :: 't' :: 'r' :: 'o' :: 'k' :: 'e' :: '=' :: '"' ::
        (v ++ '"' :: D)) = _
  rw [subAttr_cons_none
        (show tryMatch strokeLit
            ('s' :: 't' :: 'r' :: 'o' :: 'k' :: 'e' :: '=' :: '"' ::
              (v ++ '"' :: D)) =
            none from tryMatch_append_blocked strokeLit v D hb'),
      subAttr_cons_none (tryMatch_strokeLit_cons 't' _ (by decide)),
      subAttr_cons_none (tryMatch_strokeLit_cons 'r' _ (by decide)),
      subAttr_cons_none (tryMatch_strokeLit_cons 'o' _ (by decide)),
      subAttr_cons_none (tryMatch_strokeLit_cons 'k' _ (by decide)),
      subAttr_cons_none (tryMatch_strokeLit_cons 'e' _ (by decide)),
      subAttr_cons_none (tryMatch_strokeLit_cons '=' _ (by decide)),
      subAttr_cons_none (tryMatch_strokeLit_cons '"' _ (by decide)),
      subAttr_skip_value_stroke color v D hv hs]
  rfl

theorem noAdjacentPlain_tail {tok : SvgTok} {rest : List SvgTok}
    (h : noAdjacentPlain (tok :: rest) = true) :
    noAdjacentPlain rest = true := by
  cases tok with
  | plain t =>
    cases rest with
    | nil => rfl
    | cons tok2 rest' =>
      cases tok2 with
      | plain t2 => simp [noAdjacentPlain] at h
      | fillAttr v => simpa [noAdjacentPlain] using h
      | strokeAttr v => simpa [noAdjacentPlain] using h
  | fillAttr v => simpa [noAdjacentPlain] using h
  | strokeAttr v => simpa [noAdjacentPlain] using h

/-- The `fill` pass (`re.sub` of source line 207) over a whole structured
document: every `fill` attribute is rewritten by the lookahead rule,
every other character of the document is untouched. -/
theorem subAttr_fill_pass (color : List Char) :
    ∀ toks : List SvgTok, (∀ tok ∈ toks, goodTok tok = true) →
      noAdjacentPlain toks = true →
      subAttr fillLit color (renderDoc toks) =
        renderDoc (toks.map (fillPassTok color))
  | [], _, _ => subAttr_nil _ _
  | .plain t :: rest, hg, hn => by
    have ht : ∀ c ∈ t, c ≠ '"' := by
      have h0 : (!t.contains '"') = true := hg (.plain t) (by simp)
      exact not_contains_quote (by simpa using h0)
    have hD : renderDoc rest = [] ∨ ∃ d D', renderDoc rest = d :: D' ∧
        d ≠ '"' ∧ d ∉ (['f', 'i', 'l', 'l', '='] : List Char).drop 1 := by
      cases rest with
      | nil => exact Or.inl rfl
      | cons tok2 rest' =>
        cases tok2 with
        | fillAttr v => exact Or.inr ⟨'f', _, rfl, by decide, by decide⟩
        | strokeAttr v => exact Or.inr ⟨'s', _, rfl, by decide, by decide⟩
        | plain t2 => simp [noAdjacentPlain] at hn
    show subAttr fillLit color (t ++ renderDoc rest) = _
    rw [subAttr_skip_plain_fill color t (renderDoc rest) ht hD,
        subAttr_fill_pass color rest
          (fun tok htok => hg tok (by simp [htok]))
          (noAdjacentPlain_tail hn)]
    rfl
  | .fillAttr v :: rest, hg, hn => by
    have hgv : goodVal v = true := hg (.fillAttr v) (by simp)
    have hv := goodVal_quote hgv
    simp only [renderDoc, renderTok, List.map_cons, fillPassTok,
      List.append_assoc, List.singleton_append]
    cases hb : lookaheadBlocked v with
    | true =>
      rw [subAttr_fill_skip_fillAttr_blocked color v (renderDoc rest) hv
            (goodVal_fill_suffix hgv) hb,
          subAttr_fill_pass color rest
            (fun tok htok => hg tok (by simp [htok]))
            (noAdjacentPlain_tail hn)]
      simp
    | false =>
      have hb' : lookaheadBlocked (v ++ '"' :: renderDoc rest) = false := by
        rw [lookaheadBlocked_append_quote v hv (renderDoc rest)]
        exact hb
      rw [subAttr_some (tryMatch_append_match fillLit v hv
            (goodVal_ne_nil hgv) (renderDoc rest) hb'),
          subAttr_fill_pass color rest
            (fun tok htok => hg tok (by simp [htok]))
            (noAdjacentPlain_tail hn)]
      simp
  | .strokeAttr v :: rest, hg, hn => by
    have hgv : goodVal v = true := hg (.strokeAttr v) (by simp)
    simp only [renderDoc, renderTok, List.map_cons, fillPassTok,
      List.append_assoc, List.singleton_append]
    rw [subAttr_fill_skip_strokeAttr color v (renderDoc rest)
          (goodVal_quote hgv) (goodVal_fill_suffix hgv),
        subAttr_fill_pass color rest
          (fun tok htok => hg tok (by simp [htok]))
          (noAdjacentPlain_tail hn)]

/-- The `stroke` pass (`re.sub` of source line 208) over a whole
structured document. -/
theorem subAttr_stroke_pass (color : List Char) :
    ∀ toks : List SvgTok, (∀ tok ∈ toks, goodTok tok = true) →
      noAdjacentPlain toks = true →
      subAttr strokeLit color (renderDoc toks) =
        renderDoc (toks.map (strokePassTok color))
  | [], _, _ => subAttr_nil _ _
  | .plain t :: rest, hg, hn => by
    have ht : ∀ c ∈ t, c ≠ '"' := by
      have h0 : (!t.contains '"') = true := hg (.plain t) (by simp)
      exact not_contains_quote (by simpa using h0)
    have hD : renderDoc rest = [] ∨ ∃ d D', renderDoc rest = d :: D' ∧
        d ≠ '"' ∧
        d ∉ (['s', 't', 'r', 'o', 'k', 'e', '='] : List Char).drop 1 := by
      cases rest with
      | nil => exact Or.inl rfl
      | cons tok2 rest' =>
        cases tok2 with
        | fillAttr v => exact Or.inr ⟨'f', _, rfl, by decide, by decide⟩
        | strokeAttr v => exact Or.inr ⟨'s', _, rfl, by decide, by decide⟩
        | plain t2 => simp [noAdjacentPlain] at hn
    show subAttr strokeLit color (t ++ renderDoc rest) = _
    rw [subAttr_skip_plain_stroke color t (renderDoc rest) ht hD,
        subAttr_stroke_pass color rest
          (fun tok htok => hg tok (by simp [htok]))
          (noAdjacentPlain_tail hn)]
    rfl
  | .strokeAttr v :: rest, hg, hn => by
    have hgv : goodVal v = true := hg (.strokeAttr v) (by simp)
    have hv := goodVal_quote hgv
    simp only [renderDoc, renderTok, List.map_cons, strokePassTok,
      List.append_assoc, List.singleton_append]
    cases hb : lookaheadBlocked v with
    | true =>
      rw [subAttr_stroke_skip_strokeAttr_blocked color v (renderDoc rest)
            hv (goodVal_stroke_suffix hgv) hb,
          subAttr_stroke_pass color rest
            (fun tok htok => hg tok (by simp [htok]))
            (noAdjacentPlain_tail hn)]
      simp
    | false =>
      have hb' : lookaheadBlocked (v ++ '"' :: renderDoc rest) = false := by
        rw [lookaheadBlocked_append_quote v hv (renderDoc rest)]
        exact hb
      rw [subAttr_some (tryMatch_append_match strokeLit v hv
            (goodVal_ne_nil hgv) (renderDoc rest) hb'),
          subAttr_stroke_pass color rest
            (fun tok htok => hg tok (by simp [htok]))
            (noAdjacentPlain_tail hn)]
      simp
  | .fillAttr v :: rest, hg, hn => by
    have hgv : goodVal v = true := hg (.fillAttr v) (by simp)
    simp only [renderDoc, renderTok, List.map_cons, strokePassTok,
      List.append_assoc, List.singleton_append]
    rw [subAttr_stroke_skip_fillAttr color v (renderDoc rest)
          (goodVal_quote hgv) (goodVal_stroke_suffix hgv),
        subAttr_stroke_pass color rest
          (fun tok htok => hg tok (by simp [htok]))
          (noAdjacentPlain_tail hn)]

theorem goodTok_fillPassTok (color : List Char) (hc : goodVal color = true) :
    ∀ tok : SvgTok, goodTok tok = true → goodTok (fillPassTok color tok) = true := by
  intro tok h
  cases tok with
  | fillAttr v =>
    show goodVal (if lookaheadBlocked v then v else color) = true
    split
    · exact h
    · exact hc
  | strokeAttr v => exact h
  | plain t => exact h

theorem noAdjacentPlain_map_fillPass (color : List Char) :
    ∀ toks : List SvgTok,
      noAdjacentPlain (toks.map (fillPassTok color)) = noAdjacentPlain toks
  | [] => rfl
  | [tok] => by cases tok <;> rfl
  | tok1 :: tok2 :: rest => by
    have ih := noAdjacentPlain_map_fillPass color (tok2 :: rest)
    cases tok1 <;> cases tok2 <;>
      simpa [noAdjacentPlain, fillPassTok] using ih

/-- **C6** (amended, settled over whole documents): for every structured
SVG text — an alternation of quote-free plain segments with `fill="v"`
and `stroke="v"` attributes whose values are nonempty, quote-free and do
not end in the literal `fill=` or `stroke=` — and every such requested
color, `svgRecolor` rewrites the value of *every* `fill` and *every*
`stroke` attribute whose value does not start with `none` or `url` to the
requested color, and leaves every other character of the document — plain
text, and attributes whose value starts with `none` or `url` (the regex's
prefix lookahead, not equality with `none` or the `url(...)` shape) —
byte-for-byte untouched. -/
theorem C6_recolor_doc (color : List Char) (toks : List SvgTok)
    (hc : goodVal color = true)
    (hg : ∀ tok ∈ toks, goodTok tok = true)
    (hn : noAdjacentPlain toks = true) :
    svgRecolor color (renderDoc toks) =
      renderDoc (toks.map fun tok =>
        strokePassTok color (fillPassTok color tok)) := by
  unfold svgRecolor
  rw [subAttr_fill_pass color toks hg hn,
      subAttr_stroke_pass color (toks.map (fillPassTok color))
        (by
          intro tok htok
          obtain ⟨tok0, htok0, rfl⟩ := List.mem_map.mp htok
          exact goodTok_fillPassTok color hc tok0 (hg tok0 htok0))
        (by rw [noAdjacentPlain_map_fillPass]; exact hn),
      List.map_map]
  rfl

/-- Witness for C6 on a three-attribute document: `fill="#abc123"` and
`stroke="#00ff00"` are rewritten to `#ff0000`, `stroke="none"` is left
untouched, and the plain text around them is unchanged. -/
theorem C6_witness :
    svgRecolor ['#', 'f', 'f', '0', '0', '0', '0']
        (renderDoc
          [SvgTok.plain ['<', 'p', 'a', 't', 'h', ' '],
           SvgTok.fillAttr ['#', 'a', 'b', 'c', '1', '2', '3'],
           SvgTok.plain [' '],
           SvgTok.strokeAttr ['n', 'o', 'n', 'e'],
           SvgTok.plain [' '],
           SvgTok.strokeAttr ['#', '0', '0', 'f', 'f', '0', '0'],
           SvgTok.plain ['/', '>']]) =
      ['<', 'p', 'a', 't', 'h', ' '] ++
        (fillLit ++ ['#', 'f', 'f', '0', '0', '0', '0'] ++ ['"']) ++
        [' '] ++
        (strokeLit ++ ['n', 'o', 'n', 'e'] ++ ['"']) ++
        [' '] ++
        (strokeLit ++ ['#', 'f', 'f', '0', '0', '0', '0'] ++ ['"']) ++
        ['/', '>'] := by
  have h := C6_recolor_doc ['#', 'f', 'f', '0', '0', '0', '0']
    [SvgTok.plain ['<', 'p', 'a', 't', 'h', ' '],
     SvgTok.fillAttr ['#', 'a', 'b', 'c', '1', '2', '3'],
     SvgTok.plain [' '],
     SvgTok.strokeAttr ['n', 'o', 'n', 'e'],
     SvgTok.plain [' '],
     SvgTok.strokeAttr ['#', '0', '0', 'f', 'f', '0', '0'],
     SvgTok.plain ['/', '>']]
    (by decide) (by decide) (by decide)
  exact h.trans (by decide)

/-- **C6** counterexample: the attribute value `nonefoo` is neither equal
to `none` nor of the form `url(...)` (it does not even start with `url`),
so by the claim the recolor should rewrite it; the code's negative
lookahead `(?!(none|url))` blocks any value merely *starting with* `none`,
so `fill="nonefoo"` is left byte-for-byte unchanged. -/
theorem C6_counterexample :
    svgRecolor ['#', 'a', 'b', 'c', '1', '2', '3']
        (fillLit ++ ['n', 'o', 'n', 'e', 'f', 'o', 'o'] ++ ['"']) =
      fillLit ++ ['n', 'o', 'n', 'e', 'f', 'o', 'o'] ++ ['"'] ∧
    ['n', 'o', 'n', 'e', 'f', 'o', 'o'] ≠ ['n', 'o', 'n', 'e'] ∧
    (['u', 'r', 'l'].isPrefixOf
        ['n', 'o', 'n', 'e', 'f', 'o', 'o']) = false := by
  refine ⟨by decide, by decide, by decide⟩

/-! ### Lemmas about the batch executor -/

theorem workerRun_cancel_aux (total k : ℕ) :
    ∀ (d : ℕ) (names : List String) (i : ℕ), k = i + d → d < names.length →
      workerRun total (fun j => decide (k ≤ j)) i
          (names.map fun n => (n, Except.ok ())) =
        ((List.range d).flatMap fun t =>
          [WEvent.progress (i + t) total (names.getD t ""),
           WEvent.gen (i + t)]) ++ [WEvent.finishedCancelled]
  | 0, names, i, hk, hd => by
    cases names with
    | nil => simp at hd
    | cons n rest =>
      have hflag : (decide (k ≤ i)) = true := by
        simp
        omega
      simp [workerRun, hflag]
  | d + 1, names, i, hk, hd => by
    cases names with
    | nil => simp at hd
    | cons n rest =>
      have hflag : (decide (k ≤ i)) = false := by
        simp
        omega
      simp only [List.map_cons, workerRun, hflag, Bool.false_eq_true,
        if_false]
      rw [workerRun_cancel_aux total k d rest (i + 1) (by omega)
        (by simp at hd; omega)]
      rw [List.range_succ_eq_map, List.flatMap_cons, List.flatMap_map]
      simp [List.getD_cons_succ, Nat.succ_eq_add_one, Nat.add_assoc,
        Nat.add_comm, Nat.add_left_comm]

theorem countP_interleave (total : ℕ) (lbl : ℕ → String) :
    ∀ k : ℕ,
      (((List.range k).flatMap fun t =>
          [WEvent.progress t total (lbl t), WEvent.gen t]).countP
        (fun e => match e with
          | WEvent.progress _ _ _ => true
          | _ => false)) = k
  | 0 => rfl
  | k + 1 => by
    rw [List.range_succ, List.flatMap_append, List.countP_append,
      countP_interleave total lbl k]
    rfl

theorem gen_mem_interleave (total : ℕ) (lbl : ℕ → String) (k i : ℕ)
    (h : WEvent.gen i ∈ ((List.range k).flatMap fun t =>
      [WEvent.progress t total (lbl t), WEvent.gen t])) : i < k := by
  simp only [List.mem_flatMap, List.mem_range, List.mem_cons,
    List.not_mem_nil, or_false] at h
  obtain ⟨t, ht, h2⟩ := h
  rcases h2 with h2 | h2
  · exact absurd h2 (by simp)
  · cases h2
    exact ht

/-- **C7** (amended): when the cancellation flag becomes set after item `k`
completes (`k < n`), the run emits, for each item `0 ≤ t < k`, a
`progress(t, n, label)` signal immediately *before* processing item `t`
(the code emits progress before calling `generate`, not after the item's
completion), then processes the item; at the check before item `k` it
stops with the cancellation `finished` signal.  Exactly `k` progress
events are emitted, no files are written for items `k..n-1` (no `gen`
event with index `≥ k`), and the terminal event is the Cancelled one. -/
theorem C7_cancel_before_each_item (names : List String) (k : ℕ)
    (hk : k < names.length) (i : ℕ) :
    runWorker (names.map fun n => (n, Except.ok ()))
        (fun j => decide (k ≤ j)) =
      ((List.range k).flatMap fun t =>
        [WEvent.progress t names.length (names.getD t ""),
         WEvent.gen t]) ++ [WEvent.finishedCancelled] ∧
    (runWorker (names.map fun n => (n, Except.ok ()))
        (fun j => decide (k ≤ j))).countP
      (fun e => match e with
        | WEvent.progress _ _ _ => true
        | _ => false) = k ∧
    (WEvent.gen i ∈ runWorker (names.map fun n => (n, Except.ok ()))
        (fun j => decide (k ≤ j)) → i < k) ∧
    (runWorker (names.map fun n => (n, Except.ok ()))
        (fun j => decide (k ≤ j))).getLast? =
      some WEvent.finishedCancelled := by
  have h0 := workerRun_cancel_aux names.length k k names 0 (by omega) hk
  have htrace : runWorker (names.map fun n => (n, Except.ok ()))
      (fun j => decide (k ≤ j)) =
      ((List.range k).flatMap fun t =>
        [WEvent.progress t names.length (names.getD t ""),
         WEvent.gen t]) ++ [WEvent.finishedCancelled] := by
    unfold runWorker
    rw [List.length_map]
    simpa using h0
  refine ⟨htrace, ?_, ?_, ?_⟩
  · rw [htrace, List.countP_append,
      countP_interleave names.length (fun t => names.getD t "") k]
    rfl
  · intro hmem
    rw [htrace] at hmem
    rcases List.mem_append.mp hmem with hmem | hmem
    · exact gen_mem_interleave names.length _ k i hmem
    · exact absurd hmem (by simp)
  · rw [htrace]
    rw [List.getLast?_append_of_ne_nil _ (by simp)]
    rfl

/-- Witness for C7: five items, flag set after item 2 completes — the
trace holds exactly two progress events, each immediately before the
corresponding item's files, and ends Cancelled. -/
theorem C7_witness :
    runWorker (["a", "b", "c", "d", "e"].map fun n => (n, Except.ok ()))
        (fun j => decide (2 ≤ j)) =
      [WEvent.progress 0 5 "a", WEvent.gen 0, WEvent.progress 1 5 "b",
       WEvent.gen 1, WEvent.finishedCancelled] := by
  have h := C7_cancel_before_each_item ["a", "b", "c", "d", "e"] 2
    (by decide) 0
  exact h.1.trans (by decide)

/-- **C7** counterexample: in the concrete five-item batch cancelled after
item 2, the `progress` event for item 0 occurs at trace position 0,
*before* the completion of item 0 (position 1) — while the claim says each
progress event is reported after the corresponding item's completion. -/
theorem C7_counterexample :
    runWorker (["a", "b", "c", "d", "e"].map fun n => (n, Except.ok ()))
        (fun j => decide (2 ≤ j)) =
      [WEvent.progress 0 5 "a", WEvent.gen 0, WEvent.progress 1 5 "b",
       WEvent.gen 1, WEvent.finishedCancelled] ∧
    (runWorker (["a", "b", "c", "d", "e"].map fun n => (n, Except.ok ()))
        (fun j => decide (2 ≤ j))).findIdx
      (fun e => e == WEvent.progress 0 5 "a") <
    (runWorker (["a", "b", "c", "d", "e"].map fun n => (n, Except.ok ()))
        (fun j => decide (2 ≤ j))).findIdx
      (fun e => e == WEvent.gen 0) := by
  exact ⟨by decide, by decide⟩

theorem workerRun_error_aux (total : ℕ) (e fname : String)
    (post : List (String × Except String Unit)) :
    ∀ (pre : List String) (i : ℕ),
      workerRun total (fun _ => false) i
          ((pre.map fun n => (n, Except.ok ())) ++
            (fname, Except.error e) :: post) =
        ((List.range pre.length).flatMap fun t =>
          [WEvent.progress (i + t) total (pre.getD t ""),
           WEvent.gen (i + t)]) ++
        [WEvent.progress (i + pre.length) total fname, WEvent.failed e]
  | [], i => by
    simp [workerRun]
  | n :: pre, i => by
    simp only [List.map_cons, List.cons_append, workerRun,
      Bool.false_eq_true, if_false, List.append_eq]
    rw [workerRun_error_aux total e fname post pre (i + 1)]
    simp only [List.length_cons]
    rw [List.range_succ_eq_map, List.flatMap_cons, List.flatMap_map]
    simp [List.getD_cons_succ, Nat.succ_eq_add_one, Nat.add_assoc,
      Nat.add_comm, Nat.add_left_comm]

/-- **C8** (confirmed): the whole batch loop runs inside one `try`; when
item `k` (0-based `pre.length`) raises, the `except` block emits one
`error` signal carrying the exception text and returns — the job is Failed
immediately after item `k`, and the remaining items are never attempted
(no event mentions them; in particular no files are written for them). -/
theorem C8_error_aborts_batch (pre : List String) (fname e : String)
    (post : List (String × Except String Unit)) (i : ℕ) :
    runWorker ((pre.map fun n => (n, Except.ok ())) ++
        (fname, Except.error e) :: post) (fun _ => false) =
      ((List.range pre.length).flatMap fun t =>
        [WEvent.progress t (pre.length + 1 + post.length) (pre.getD t ""),
         WEvent.gen t]) ++
      [WEvent.progress pre.length (pre.length + 1 + post.length) fname,
       WEvent.failed e] ∧
    (runWorker ((pre.map fun n => (n, Except.ok ())) ++
        (fname, Except.error e) :: post) (fun _ => false)).getLast? =
      some (WEvent.failed e) ∧
    (WEvent.gen i ∈ runWorker ((pre.map fun n => (n, Except.ok ())) ++
        (fname, Except.error e) :: post) (fun _ => false) →
      i < pre.length) := by
  have hlen : ((pre.map fun n => (n, Except.ok ())) ++
      (fname, Except.error e) :: post).length =
      pre.length + 1 + post.length := by
    simp
    omega
  have h0 := workerRun_error_aux (pre.length + 1 + post.length) e fname
    post pre 0
  have htrace : runWorker ((pre.map fun n => (n, Except.ok ())) ++
      (fname, Except.error e) :: post) (fun _ => false) =
      ((List.range pre.length).flatMap fun t =>
        [WEvent.progress t (pre.length + 1 + post.length) (pre.getD t ""),
         WEvent.gen t]) ++
      [WEvent.progress pre.length (pre.length + 1 + post.length) fname,
       WEvent.failed e] := by
    unfold runWorker
    rw [hlen]
    simpa using h0
  refine ⟨htrace, ?_, ?_⟩
  · rw [htrace, List.getLast?_append_of_ne_nil _ (by simp)]
    rfl
  · intro hmem
    rw [htrace] at hmem
    rcases List.mem_append.mp hmem with hmem | hmem
    · exact gen_mem_interleave _ _ pre.length i hmem
    · exact absurd hmem (by simp)

/-- Witness for C8: item 3 of 5 raises; items 1-2 are processed, the
error for item 3 is emitted right after its progress signal, and items
4-5 are never attempted. -/
theorem C8_witness :
    runWorker ((["a", "b"].map fun n => (n, Except.ok ())) ++
        ("c", Except.error "boom") ::
          [("d", Except.ok ()), ("e", Except.ok ())]) (fun _ => false) =
      [WEvent.progress 0 5 "a", WEvent.gen 0, WEvent.progress 1 5 "b",
       WEvent.gen 1, WEvent.progress 2 5 "c", WEvent.failed "boom"] := by
  have h := C8_error_aborts_batch ["a", "b"] "c" "boom"
    [("d", Except.ok ()), ("e", Except.ok ())] 0
  exact h.1.trans (by decide)
